import Mathlib

/-!
Verification of `Yank/pipeline.py` (`find_components`).

The embedding models an mdtraj topology as the list of residue names of its
atoms, in atom order: the atom at list position `i` is the atom with index `i`
(mdtraj enumerates `topology.atoms` in increasing `atom.index` order, and
`atom.residue.name` is the residue name attached to it).  The result of
`mdtraj_top.select(ligand_dsl)` is treated as an opaque list of atom indices,
exactly as the code does, so it appears as the parameter `ligand` of the core
function.
-/

namespace Yank

/-- The static solvent/ion residue-name set `_SOLVENT_RESNAMES` from
`pipeline.py`, verbatim.  The Python source stores it as a `frozenset`;
membership is the only operation used on it, so a list with `∈` is a faithful
model. -/
def _SOLVENT_RESNAMES : List String :=
  ["118", "119", "1AL", "1CU", "2FK", "2HP", "2OF", "3CO", "3MT",
   "3NI", "3OF", "4MO", "543", "6MO", "ACT", "AG", "AL", "ALF", "ATH",
   "AU", "AU3", "AUC", "AZI", "Ag", "BA", "BAR", "BCT", "BEF", "BF4",
   "BO4", "BR", "BS3", "BSY", "Be", "CA", "CA+2", "Ca+2", "CAC", "CAD",
   "CAL", "CD", "CD1", "CD3", "CD5", "CE", "CES", "CHT", "CL", "CL-",
   "CLA", "Cl-", "CO", "CO3", "CO5", "CON", "CR", "CS", "CSB", "CU",
   "CU1", "CU3", "CUA", "CUZ", "CYN", "Cl-", "Cr", "DME", "DMI", "DSC",
   "DTI", "DY", "E4N", "EDR", "EMC", "ER3", "EU", "EU3", "F", "FE", "FE2",
   "FPO", "GA", "GD3", "GEP", "HAI", "HG", "HGC", "HOH", "IN", "IOD",
   "ION", "IR", "IR3", "IRI", "IUM", "K", "K+", "KO4", "LA", "LCO", "LCP",
   "LI", "LIT", "LU", "MAC", "MG", "MH2", "MH3", "MLI", "MMC", "MN",
   "MN3", "MN5", "MN6", "MO1", "MO2", "MO3", "MO4", "MO5", "MO6", "MOO",
   "MOS", "MOW", "MW1", "MW2", "MW3", "NA", "NA+2", "NA2", "NA5", "NA6",
   "NAO", "NAW", "Na+2", "NET", "NH4", "NI", "NI1", "NI2", "NI3", "NO2",
   "NO3", "NRU", "Na+", "O4M", "OAA", "OC1", "OC2", "OC3", "OC4", "OC5",
   "OC6", "OC7", "OC8", "OCL", "OCM", "OCN", "OCO", "OF1", "OF2", "OF3",
   "OH", "OS", "OS4", "OXL", "PB", "PBM", "PD", "PER", "PI", "PO3", "PO4",
   "POT", "PR", "PT", "PT4", "PTN", "RB", "RH3", "RHD", "RU", "RUB", "Ra",
   "SB", "SCN", "SE4", "SEK", "SM", "SMO", "SO3", "SO4", "SOD", "SR",
   "Sm", "Sn", "T1A", "TB", "TBA", "TCN", "TEA", "THE", "TL", "TMA",
   "TRA", "UNX", "V", "V2+", "VN3", "VO4", "W", "WO5", "Y1", "YB", "YB2",
   "YH", "YT3", "ZN", "ZN2", "ZN3", "ZNA", "ZNO", "ZO3"]

/-- The four lists stored in the `atom_indices` dict returned by
`find_components`, one field per key. -/
structure Components where
  ligand : List Nat
  solvent : List Nat
  receptor : List Nat
  complex : List Nat
  deriving Repr, DecidableEq

/-- `[atom.index for atom in mdtraj_top.atoms if atom.residue.name in
solvent_resnames]`: walk the atoms (atom at position `i` of `topology` having
index `i`, starting from index `k`), keeping the index of each atom whose
residue name is in `solvent_resnames`. -/
def solventIndices (solvent_resnames : List String) : Nat → List String → List Nat
  | _, [] => []
  | k, r :: rest =>
      if r ∈ solvent_resnames then k :: solventIndices solvent_resnames (k + 1) rest
      else solventIndices solvent_resnames (k + 1) rest

/-- `[atom.index for atom in mdtraj_top.atoms if atom.index not in
not_receptor_set]`: walk the atoms starting from index `k`, keeping each index
not in `not_receptor_set`. -/
def receptorIndices (not_receptor_set : List Nat) : Nat → List String → List Nat
  | _, [] => []
  | k, _ :: rest =>
      if k ∈ not_receptor_set then receptorIndices not_receptor_set (k + 1) rest
      else k :: receptorIndices not_receptor_set (k + 1) rest

/-- Core of `find_components` from `pipeline.py`, after the topology has been
converted to mdtraj form and `mdtraj_top.select(ligand_dsl).tolist()` has
produced the opaque index list `ligand`:

    atom_indices['ligand'] = mdtraj_top.select(ligand_dsl).tolist()
    atom_indices['solvent'] = [atom.index for atom in mdtraj_top.atoms
                               if atom.residue.name in solvent_resnames]
    not_receptor_set = frozenset(atom_indices['ligand'] + atom_indices['solvent'])
    atom_indices['receptor'] = [atom.index for atom in mdtraj_top.atoms
                                if atom.index not in not_receptor_set]
    atom_indices['complex'] = atom_indices['receptor'] + atom_indices['ligand']

The Python `frozenset` is only used for membership tests, so the list
`ligand ++ solvent` with `∈` models it faithfully. -/
def find_components (topology : List String) (ligand : List Nat)
    (solvent_resnames : List String) : Components :=
  let solvent := solventIndices solvent_resnames 0 topology
  let not_receptor_set := ligand ++ solvent
  let receptor := receptorIndices not_receptor_set 0 topology
  ⟨ligand, solvent, receptor, receptor ++ ligand⟩

/-- The topology argument of `find_components`: either already an
`mdtraj.Topology`, or an OpenMM topology to be converted, or an object of an
unsupported type.  An unsupported object carries the message of the exception
the external library raises on it. -/
inductive TopologyInput where
  | mdtrajTop (atoms : List String)
  | openmmTop (atoms : List String)
  | unsupportedTop (err : String)
  deriving Repr, DecidableEq

/-- Modelled from the spec: `mdtraj.Topology.from_openmm` (external library,
not part of this repository) converts an OpenMM topology to the native mdtraj
representation and raises its own exception on any other input; this code
performs no validation or recovery of its own. -/
def from_openmm : TopologyInput → Except String (List String)
  | .openmmTop atoms => .ok atoms
  | .mdtrajTop atoms => .ok atoms
  | .unsupportedTop err => .error err

/-- `find_components` including the topology-conversion branch and the
(opaque, possibly failing) DSL selection:

    if isinstance(topology, mdtraj.Topology):
        mdtraj_top = topology
    else:
        mdtraj_top = mdtraj.Topology.from_openmm(topology)

`select` stands for the external `mdtraj_top.select`; any exception it or the
conversion raises propagates unchanged (the Python function has no
`try`/`except`). -/
def find_componentsE (topology : TopologyInput)
    (select : List String → String → Except String (List Nat))
    (ligand_dsl : String) (solvent_resnames : List String) :
    Except String Components := do
  let mdtraj_top ← match topology with
    | .mdtrajTop atoms => pure atoms
    | other => from_openmm other
  let ligand ← select mdtraj_top ligand_dsl
  pure (find_components mdtraj_top ligand solvent_resnames)

/-! ### Characterisation lemmas -/

/-- Membership in `solventIndices`: exactly the indices `k + m` of atoms whose
residue name is in the set. -/
theorem mem_solventIndices {s : List String} {t : List String} {k j : Nat} :
    j ∈ solventIndices s k t ↔
      ∃ m, ∃ h : m < t.length, j = k + m ∧ t.get ⟨m, h⟩ ∈ s := by
  induction t generalizing k with
  | nil => simp [solventIndices]
  | cons r rest ih =>
    by_cases hr : r ∈ s
    · simp only [solventIndices, hr, if_pos, List.mem_cons, ih]
      constructor
      · rintro (rfl | ⟨m, hm, rfl, hmem⟩)
        · exact ⟨0, by simp, by simp, by simpa using hr⟩
        · exact ⟨m + 1, by simpa using hm, by omega, by simpa using hmem⟩
      · rintro ⟨m, hm, rfl, hmem⟩
        cases m with
        | zero => left; omega
        | succ m =>
          right
          exact ⟨m, by simpa using hm, by omega, by simpa using hmem⟩
    · simp only [solventIndices, hr, if_neg, not_false_iff, ih]
      constructor
      · rintro ⟨m, hm, rfl, hmem⟩
        exact ⟨m + 1, by simpa using hm, by omega, by simpa using hmem⟩
      · rintro ⟨m, hm, rfl, hmem⟩
        cases m with
        | zero => simp at hmem; exact absurd hmem hr
        | succ m =>
          exact ⟨m, by simpa using hm, by omega, by simpa using hmem⟩

/-- Membership in `receptorIndices`: exactly the indices in
`[k, k + t.length)` not in the excluded set. -/
theorem mem_receptorIndices {ns : List Nat} {t : List String} {k j : Nat} :
    j ∈ receptorIndices ns k t ↔ k ≤ j ∧ j < k + t.length ∧ j ∉ ns := by
  induction t generalizing k with
  | nil => simp [receptorIndices]; omega
  | cons r rest ih =>
    by_cases hk : k ∈ ns
    · simp only [receptorIndices, hk, if_pos, ih]
      constructor
      · rintro ⟨h1, h2, h3⟩
        exact ⟨by omega, by simpa using by omega, h3⟩
      · rintro ⟨h1, h2, h3⟩
        refine ⟨?_, by simp at h2 ⊢; omega, h3⟩
        rcases Nat.eq_or_lt_of_le h1 with rfl | hlt
        · exact absurd hk h3
        · omega
    · simp only [receptorIndices, hk, if_neg, not_false_iff, List.mem_cons, ih]
      constructor
      · rintro (rfl | ⟨h1, h2, h3⟩)
        · exact ⟨le_refl _, by simp, hk⟩
        · exact ⟨by omega, by simp at h2 ⊢; omega, h3⟩
      · rintro ⟨h1, h2, h3⟩
        rcases Nat.eq_or_lt_of_le h1 with rfl | hlt
        · exact Or.inl rfl
        · exact Or.inr ⟨hlt, by simp at h2 ⊢; omega, h3⟩

/-- Projection: the `ligand` entry is the `select` result, untouched. -/
theorem find_components_ligand (t : List String) (lig : List Nat) (s : List String) :
    (find_components t lig s).ligand = lig := rfl

/-- Projection: the `solvent` entry is the solvent comprehension. -/
theorem find_components_solvent (t : List String) (lig : List Nat) (s : List String) :
    (find_components t lig s).solvent = solventIndices s 0 t := rfl

/-- Projection: the `receptor` entry filters out ligand and solvent indices. -/
theorem find_components_receptor (t : List String) (lig : List Nat) (s : List String) :
    (find_components t lig s).receptor =
      receptorIndices (lig ++ solventIndices s 0 t) 0 t := rfl

/-- `receptorIndices` is the index range `[k, k + t.length)` filtered by
non-membership in the excluded set. -/
theorem receptorIndices_eq_filter (ns : List Nat) (k : Nat) (t : List String) :
    receptorIndices ns k t =
      (List.range' k t.length).filter (fun i => decide (i ∉ ns)) := by
  induction t generalizing k with
  | nil => simp [receptorIndices]
  | cons r rest ih =>
    by_cases hk : k ∈ ns
    · simp [receptorIndices, hk, List.range'_succ, ih]
    · simp [receptorIndices, hk, List.range'_succ, ih]

/-- Every pair of entries of `solventIndices` is in strictly increasing
order. -/
theorem solventIndices_pairwise (s : List String) (k : Nat) (t : List String) :
    List.Pairwise (· < ·) (solventIndices s k t) := by
  induction t generalizing k with
  | nil => simp [solventIndices]
  | cons r rest ih =>
    by_cases hr : r ∈ s
    · simp only [solventIndices, hr, if_pos, List.pairwise_cons]
      refine ⟨?_, ih (k + 1)⟩
      intro j hj
      rcases mem_solventIndices.1 hj with ⟨m, hm, rfl, hmem⟩
      omega
    · simp only [solventIndices, hr, if_neg, not_false_iff]
      exact ih (k + 1)

/-- If no residue name of the topology is in the solvent set, the solvent
comprehension is empty. -/
theorem solventIndices_eq_nil {s : List String} {t : List String} (k : Nat)
    (h : ∀ r ∈ t, r ∉ s) : solventIndices s k t = [] := by
  induction t generalizing k with
  | nil => rfl
  | cons r rest ih =>
    have hr : r ∉ s := h r (List.mem_cons_self r rest)
    simp only [solventIndices, hr, if_neg, not_false_iff]
    exact ih (k + 1) fun x hx => h x (List.mem_cons_of_mem r hx)

/-! ### Claim theorems -/

/-- C1 (counterexample): on the one-atom topology whose single residue is
named `HOH` with a ligand selection containing atom 0 — e.g. the valid DSL
query `water` — atom 0 is in both the `ligand` and the `solvent` lists, so
`ligand ∩ solvent = ∅` fails. -/
theorem C1_ligand_solvent_overlap :
    0 ∈ (find_components ["HOH"] [0] _SOLVENT_RESNAMES).ligand ∧
    0 ∈ (find_components ["HOH"] [0] _SOLVENT_RESNAMES).solvent := by
  constructor
  · simp [find_components]
  · have h : ("HOH" : String) ∈ _SOLVENT_RESNAMES := by decide
    simp [find_components, solventIndices, h]

/-- C1 (amended): `receptor` is disjoint from both `ligand` and `solvent`
unconditionally; all three lists are pairwise disjoint whenever the ligand
selection contains no solvent-classified atom. -/
theorem C1_pairwise_disjoint (t : List String) (lig : List Nat) (s : List String)
    (h : ∀ i ∈ lig, i ∉ (find_components t lig s).solvent) :
    (∀ i ∈ (find_components t lig s).ligand, i ∉ (find_components t lig s).solvent) ∧
    (∀ i ∈ (find_components t lig s).ligand, i ∉ (find_components t lig s).receptor) ∧
    (∀ i ∈ (find_components t lig s).solvent, i ∉ (find_components t lig s).receptor) := by
  refine ⟨h, ?_, ?_⟩ <;> intro i hi hrec
  · rcases (mem_receptorIndices.1 hrec) with ⟨-, -, hnot⟩
    exact hnot (List.mem_append_left _ hi)
  · rcases (mem_receptorIndices.1 hrec) with ⟨-, -, hnot⟩
    exact hnot (List.mem_append_right _ hi)

theorem C1_pairwise_disjoint_witness :
    (∀ i ∈ (find_components ["MOL"] [0] ["HOH"]).ligand,
        i ∉ (find_components ["MOL"] [0] ["HOH"]).solvent) ∧
    (∀ i ∈ (find_components ["MOL"] [0] ["HOH"]).ligand,
        i ∉ (find_components ["MOL"] [0] ["HOH"]).receptor) ∧
    (∀ i ∈ (find_components ["MOL"] [0] ["HOH"]).solvent,
        i ∉ (find_components ["MOL"] [0] ["HOH"]).receptor) :=
  C1_pairwise_disjoint ["MOL"] [0] ["HOH"] (by decide)

/-- C2: when every index selected as ligand is a valid atom index (as the
external `select` guarantees), the union of the `receptor`, `ligand` and
`solvent` index sets is exactly the set of all atom indices of the
topology. -/
theorem C2_union_covers (t : List String) (lig : List Nat) (s : List String)
    (h : ∀ i ∈ lig, i < t.length) (i : Nat) :
    (i ∈ (find_components t lig s).receptor ∨ i ∈ (find_components t lig s).ligand ∨
      i ∈ (find_components t lig s).solvent) ↔ i < t.length := by
  simp only [find_components_receptor, find_components_ligand, find_components_solvent]
  constructor
  · rintro (hrec | hlig | hsol)
    · rcases mem_receptorIndices.1 hrec with ⟨-, hlt, -⟩
      omega
    · exact h i hlig
    · rcases mem_solventIndices.1 hsol with ⟨m, hm, rfl, -⟩
      omega
  · intro hi
    by_cases hlig : i ∈ lig
    · exact Or.inr (Or.inl hlig)
    by_cases hsol : i ∈ solventIndices s 0 t
    · exact Or.inr (Or.inr hsol)
    refine Or.inl (mem_receptorIndices.2 ⟨Nat.zero_le _, by omega, ?_⟩)
    intro hmem
    rcases List.mem_append.1 hmem with hmem | hmem
    · exact hlig hmem
    · exact hsol hmem

theorem C2_union_covers_witness :
    (0 ∈ (find_components ["MOL"] [0] ["HOH"]).receptor ∨
      0 ∈ (find_components ["MOL"] [0] ["HOH"]).ligand ∨
      0 ∈ (find_components ["MOL"] [0] ["HOH"]).solvent) ↔
      0 < (List.length ["MOL"]) :=
  C2_union_covers ["MOL"] [0] ["HOH"] (by decide) 0

/-- C3: the `complex` list is the sequence concatenation of the `receptor`
list followed by the `ligand` list, with no sorting or deduplication. -/
theorem C3_complex_concat (t : List String) (lig : List Nat) (s : List String) :
    (find_components t lig s).complex =
      (find_components t lig s).receptor ++ (find_components t lig s).ligand := rfl

/-- C4: with the default solvent set, an atom index is in the `solvent` list
iff its residue name is an exact member of `_SOLVENT_RESNAMES`; no other
criterion plays a part. -/
theorem C4_solvent_membership (t : List String) (lig : List Nat) (i : Nat) :
    i ∈ (find_components t lig _SOLVENT_RESNAMES).solvent ↔
      ∃ h : i < t.length, t.get ⟨i, h⟩ ∈ _SOLVENT_RESNAMES := by
  simp only [find_components_solvent]
  rw [mem_solventIndices]
  constructor
  · rintro ⟨m, hm, rfl, hmem⟩
    exact ⟨by omega, by simpa using hmem⟩
  · rintro ⟨h, hmem⟩
    exact ⟨i, h, by omega, hmem⟩

/-- C5: the `receptor` list is exactly the list of all atom indices of the
topology, in topology atom order, that appear in neither the `ligand` nor the
`solvent` list. -/
theorem C5_receptor_filter (t : List String) (lig : List Nat) (s : List String) :
    (find_components t lig s).receptor =
      (List.range t.length).filter
        (fun i => decide (i ∉ (find_components t lig s).ligand ∧
                          i ∉ (find_components t lig s).solvent)) := by
  simp only [find_components_receptor, find_components_ligand, find_components_solvent]
  rw [receptorIndices_eq_filter, List.range_eq_range']
  apply List.filter_congr
  intro i _
  simp [List.mem_append, not_or]

/-- C6: on a topology object that is neither an mdtraj topology nor
convertible from OpenMM, `find_components` returns no partition: the external
conversion error propagates unchanged. -/
theorem C6_unsupported_topology (err : String)
    (select : List String → String → Except String (List Nat))
    (ligand_dsl : String) (solvent_resnames : List String) :
    find_componentsE (.unsupportedTop err) select ligand_dsl solvent_resnames =
      .error err := rfl

/-- C7: when the ligand query selects zero atoms, the `ligand` list is empty
and the `receptor` and `complex` lists are equal and consist of exactly the
non-solvent atom indices, in order. -/
theorem C7_empty_ligand (t : List String) (s : List String) :
    (find_components t [] s).ligand = [] ∧
    (find_components t [] s).complex = (find_components t [] s).receptor ∧
    (find_components t [] s).receptor =
      (List.range t.length).filter
        (fun i => decide (i ∉ (find_components t [] s).solvent)) := by
  refine ⟨rfl, ?_, ?_⟩
  · show _ ++ ([] : List Nat) = _
    exact List.append_nil _
  · simp only [find_components_receptor, find_components_solvent, List.nil_append]
    rw [receptorIndices_eq_filter, List.range_eq_range']

/-- C8: when no residue of the topology has a name in the solvent set and the
ligand selection is made of valid atom indices, the `solvent` list is empty
and `receptor ∪ ligand` covers all atom indices. -/
theorem C8_no_solvent (t : List String) (lig : List Nat) (s : List String)
    (hs : ∀ r ∈ t, r ∉ s) (hlig : ∀ i ∈ lig, i < t.length) (i : Nat) :
    (find_components t lig s).solvent = [] ∧
    ((i ∈ (find_components t lig s).receptor ∨ i ∈ (find_components t lig s).ligand) ↔
      i < t.length) := by
  have hnil : solventIndices s 0 t = [] := solventIndices_eq_nil 0 hs
  refine ⟨hnil, ?_⟩
  simp only [find_components_receptor, find_components_ligand, hnil, List.append_nil]
  constructor
  · rintro (hrec | hl)
    · rcases mem_receptorIndices.1 hrec with ⟨-, hlt, -⟩
      omega
    · exact hlig i hl
  · intro hi
    by_cases hl : i ∈ lig
    · exact Or.inr hl
    · exact Or.inl (mem_receptorIndices.2 ⟨Nat.zero_le _, by omega, hl⟩)

theorem C8_no_solvent_witness :
    (find_components ["MOL"] [0] ["HOH"]).solvent = [] ∧
    ((0 ∈ (find_components ["MOL"] [0] ["HOH"]).receptor ∨
        0 ∈ (find_components ["MOL"] [0] ["HOH"]).ligand) ↔
      0 < (List.length ["MOL"])) :=
  C8_no_solvent ["MOL"] [0] ["HOH"] (by decide) (by decide) 0

/-- C10: the `solvent` list is produced by walking the atoms in increasing
index order, so it is strictly increasing and contains no duplicates. -/
theorem C10_solvent_sorted (t : List String) (lig : List Nat) (s : List String) :
    List.Pairwise (· < ·) (find_components t lig s).solvent ∧
    ((find_components t lig s).solvent).Nodup := by
  have hp : List.Pairwise (· < ·) (find_components t lig s).solvent := by
    simp only [find_components_solvent]
    exact solventIndices_pairwise s 0 t
  exact ⟨hp, hp.imp fun h => Nat.ne_of_lt h⟩

end Yank
